import Mathlib

set_option linter.unusedVariables false
set_option maxRecDepth 100000

/-!
Verification of the LVGL weighted reference-counted cache (src/src/misc/lv_cache.h
plus its default backend, modelled from the spec because lv_cache.c is not in scope)
and of the style-property interning engine (src/src/lv_core/lv_style.c).
Machine integers are modelled as Nat/Int with explicit wrapping where the source
stores into a narrower type.
-/

/-- Cache entry bookkeeping, after `lv_cache_entry_t` in src/src/misc/lv_cache.h.
`data` is the opaque payload identity (a `const void *` in the source), `data_size`
and `memory_usage` the two size fields, `weight`/`life`/`usage_count`/`temporary`
the eviction bookkeeping.  `eid` is model-level bookkeeping: a unique id assigned
at add time so that operations that take an entry pointer in C can name an entry. -/
structure CacheEntry where
  data : Nat
  data_size : Nat
  memory_usage : Nat
  weight : Nat
  life : Int
  usage_count : Nat
  temporary : Bool
  eid : Nat
deriving DecidableEq

/-- Modelled from the spec: the state of the default cache backend
(`lv_cache_manager_t` of lv_cache.h restricted to what the missing lv_cache.c
maintains): the pool of tracked entries in insertion order (oldest first),
the byte budget `max_size`, and a fresh-id counter for new entries. -/
structure CacheState where
  pool : List CacheEntry
  max_size : Nat
  nextId : Nat
deriving DecidableEq

/-- Sum of `memory_usage` over a list of entries (the quantity the budget
invariant of spec section 3 bounds by `maxSize`). -/
def totalUsage : List CacheEntry → Nat
  | [] => 0
  | e :: es => e.memory_usage + totalUsage es

/-- Modelled from the spec: the minimum `life` among unpinned (usage_count = 0)
tracked entries, the selection key of the eviction rule of spec section 4.3. -/
def minUnpinnedLife (pool : List CacheEntry) : Option Int :=
  match pool.filter (fun e => e.usage_count == 0) with
  | [] => none
  | e :: es => some (es.foldl (fun m x => min m x.life) e.life)

/-- Modelled from the spec: remove the first (oldest-insertion) unpinned entry
whose `life` equals the given minimum, returning it and the remaining pool.
This realises the tie-break of spec section 4.3: ties among equal-life unpinned
entries are broken by oldest insertion order. -/
def extractVictim (m : Int) : List CacheEntry → Option (CacheEntry × List CacheEntry)
  | [] => none
  | e :: es =>
    if e.usage_count == 0 && e.life == m then some (e, es)
    else
      match extractVictim m es with
      | none => none
      | some (v, es') => some (v, e :: es')

/-- Modelled from the spec: one eviction step of the default backend, spec
section 4.3 rule 1: select the unpinned tracked entry with minimum life (ties
broken by oldest insertion order) and evict it. -/
def evictOne (pool : List CacheEntry) : Option (CacheEntry × List CacheEntry) :=
  match minUnpinnedLife pool with
  | none => none
  | some m => extractVictim m pool

/-- Modelled from the spec: the eviction loop of `add` (spec section 4.3 rule 1):
evict minimum-life unpinned entries until the new `memory_usage` fits the budget
or no unpinned entry remains.  `fuel` bounds the recursion; the pool length
suffices since every eviction removes one entry. -/
def evictUntilFits : Nat → Nat → Nat → List CacheEntry → List CacheEntry
  | 0, _, _, pool => pool
  | Nat.succ fuel, maxSize, mu, pool =>
    if totalUsage pool + mu ≤ maxSize then pool
    else
      match evictOne pool with
      | none => pool
      | some (_, pool') => evictUntilFits fuel maxSize mu pool'

/-- Modelled from the spec: `lv_cache_add` of the missing default backend
(spec sections 4.1 and 4.3).  Requests room for `memory_usage` bytes, running
the eviction loop if the budget is insufficient.  If room exists afterwards the
new entry is tracked with life 0 and usage_count 0; otherwise a `temporary`
entry is returned that is not placed in the tracked pool.  Never fails. -/
def lv_cache_add (s : CacheState) (d sz mu w : Nat) : CacheEntry × CacheState :=
  let pool := evictUntilFits s.pool.length s.max_size mu s.pool
  if totalUsage pool + mu ≤ s.max_size then
    let e : CacheEntry := { data := d, data_size := sz, memory_usage := mu, weight := w,
                            life := 0, usage_count := 0, temporary := false, eid := s.nextId }
    (e, { s with pool := pool ++ [e], nextId := s.nextId + 1 })
  else
    let e : CacheEntry := { data := d, data_size := sz, memory_usage := mu, weight := w,
                            life := 0, usage_count := 0, temporary := true, eid := s.nextId }
    (e, { s with pool := pool, nextId := s.nextId + 1 })

/-- Modelled from the spec: `lv_cache_find` of the missing default backend
(spec section 4.1): scan tracked entries with matching `data_size`, applying
`compare_cb`; return the first match, without affecting any entry, so the
returned state is the input state unchanged. -/
def lv_cache_find (cmp : Nat → Nat → Nat → Bool) (s : CacheState) (d sz : Nat) :
    Option CacheEntry × CacheState :=
  (s.pool.find? (fun e => e.data_size == sz && cmp e.data d sz), s)

/-- Modelled from the spec: `lv_cache_invalidate` of the missing default backend
(spec section 4.1): force-drop a tracked entry, but only if its usage_count is
zero; invalidating a pinned entry is a caller contract violation and is modelled
as leaving the entry in place. -/
def lv_cache_invalidate (s : CacheState) (eid : Nat) : CacheState :=
  { s with pool := s.pool.filter (fun e => !(e.eid == eid && e.usage_count == 0)) }

/-- Modelled from the spec: `lv_cache_get_data` of the missing default backend
(spec section 4.1): pin the entry (usage_count + 1) and add its `weight` to its
`life`. -/
def lv_cache_get_data (s : CacheState) (eid : Nat) : CacheState :=
  { s with pool := s.pool.map (fun e =>
      if e.eid == eid then
        { e with usage_count := e.usage_count + 1, life := e.life + Int.ofNat e.weight }
      else e) }

/-- Modelled from the spec: `lv_cache_release` of the missing default backend on
a tracked entry (spec section 4.1): usage_count - 1; reaching zero makes the
entry evictable but does not free it. -/
def lv_cache_release (s : CacheState) (eid : Nat) : CacheState :=
  { s with pool := s.pool.map (fun e =>
      if e.eid == eid then { e with usage_count := e.usage_count - 1 } else e) }

/-- Modelled from the spec: `lv_cache_release` applied to an entry handle
(spec section 4.1): when the entry is `temporary`, the first and only release
immediately runs `invalidate_cb` and frees the entry (the returned flag records
that the entry was freed now); for tracked entries it decrements the pin count
and returns false. -/
def lv_cache_release_entry (s : CacheState) (e : CacheEntry) : CacheState × Bool :=
  if e.temporary then (s, true)
  else
    ({ s with pool := s.pool.map (fun x =>
        if x.eid == e.eid then { x with usage_count := x.usage_count - 1 } else x) }, false)

/-- Modelled from the spec: `empty` of the missing default backend (spec
section 4.1): drop every tracked entry with usage_count = 0; pinned entries are
left in place. -/
def lv_cache_empty (s : CacheState) : CacheState :=
  { s with pool := s.pool.filter (fun e => !(e.usage_count == 0)) }

/-- One cache operation of a caller trace, covering the facade operations the
claims quantify over. -/
inductive CacheOp where
  | add (d sz mu w : Nat)
  | invalidate (eid : Nat)
  | getData (eid : Nat)
  | release (eid : Nat)
  | empty
deriving DecidableEq

/-- Apply one facade operation to the backend state. -/
def stepOp (s : CacheState) : CacheOp → CacheState
  | .add d sz mu w => (lv_cache_add s d sz mu w).2
  | .invalidate eid => lv_cache_invalidate s eid
  | .getData eid => lv_cache_get_data s eid
  | .release eid => lv_cache_release s eid
  | .empty => lv_cache_empty s

/-- Run a trace of facade operations. -/
def cacheRun (s : CacheState) : List CacheOp → CacheState
  | [] => s
  | op :: ops => cacheRun (stepOp s op) ops

/-- The state of a freshly initialised cache manager with byte budget `M`. -/
def initCache (M : Nat) : CacheState :=
  { pool := [], max_size := M, nextId := 0 }

/-- A concrete pinned entry used to instantiate the pin-safety theorem. -/
def pinnedEntryW : CacheEntry :=
  { data := 1, data_size := 4, memory_usage := 10, weight := 1, life := 0,
    usage_count := 1, temporary := false, eid := 0 }

/-- A concrete cache state holding one pinned entry. -/
def pinnedStateW : CacheState :=
  { pool := [pinnedEntryW], max_size := 100, nextId := 1 }

/-- The temporary entry produced by adding a 50-byte payload to an empty cache
whose budget is only 10 bytes. -/
def tempEntryW : CacheEntry :=
  { data := 1, data_size := 4, memory_usage := 50, weight := 1, life := 0,
    usage_count := 0, temporary := true, eid := 0 }

/-- The cache state after that oversized add: the pool is still empty. -/
def tempStateW : CacheState :=
  { pool := [], max_size := 10, nextId := 1 }

/-- A concrete one-entry pool with an unpinned entry, used to instantiate the
eviction-order theorem. -/
def evictVictimW : CacheEntry :=
  { data := 1, data_size := 4, memory_usage := 60, weight := 1, life := 0,
    usage_count := 0, temporary := false, eid := 0 }

/-- The pool holding only `evictVictimW`. -/
def evictPoolW : List CacheEntry := [evictVictimW]

/-- Wrap an int value into the signed 16-bit range, modelling the store of
`value.num` (a wider int) into the `int16_t buf_num[32]` array of lv_style.c. -/
def int16wrap (n : Int) : Int := (n + 32768) % 65536 - 32768

/-- The static interning tables of lv_style.c: `buf_num` (int16_t[32]),
`buf_ptr` (const void *[16]), `buf_color` (lv_color_t[16]) and their fill
pointers `buf_num_p` / `buf_ptr_p` / `buf_color_p` (all initialised to 1;
index 0 is the reserved not-indexed sentinel).  Arrays are modelled as total
functions from index to stored value so that writes past the declared array
size remain expressible; the declared sizes appear in the capacity checks of
the alloc functions.  Pointers and colors are identified by a Nat. -/
structure StyleTables where
  buf_num : Nat → Int
  buf_ptr : Nat → Nat
  buf_color : Nat → Nat
  buf_num_p : Nat
  buf_ptr_p : Nat
  buf_color_p : Nat

/-- The indices `1 .. p-1` scanned by the loops `for(i = 1; i < p; i++)` of
lv_style.c. -/
def scanIndices (p : Nat) : List Nat := List.range' 1 (p - 1)

/-- `lv_style_find_index_num` of lv_style.c: linear scan of `buf_num[1..p-1]`
for the value, returning 0 when absent. -/
def lv_style_find_index_num (st : StyleTables) (v : Int) : Nat :=
  match (scanIndices st.buf_num_p).find? (fun i => st.buf_num i == v) with
  | some i => i
  | none => 0

/-- `lv_style_find_index_color` of lv_style.c: linear scan of
`buf_color[1..p-1]` comparing the `.full` field. -/
def lv_style_find_index_color (st : StyleTables) (v : Nat) : Nat :=
  match (scanIndices st.buf_color_p).find? (fun i => st.buf_color i == v) with
  | some i => i
  | none => 0

/-- `lv_style_find_index_ptr` of lv_style.c: linear scan of `buf_ptr[1..p-1]`. -/
def lv_style_find_index_ptr (st : StyleTables) (v : Nat) : Nat :=
  match (scanIndices st.buf_ptr_p).find? (fun i => st.buf_ptr i == v) with
  | some i => i
  | none => 0

/-- `alloc_index_num` of lv_style.c: return the index of an existing slot
holding the value, else append the value (wrapped into int16_t) when
`buf_num_p < 32`, returning the new index, else return 0. -/
def alloc_index_num (st : StyleTables) (v : Int) : Nat × StyleTables :=
  match (scanIndices st.buf_num_p).find? (fun i => st.buf_num i == v) with
  | some i => (i, st)
  | none =>
    if st.buf_num_p < 32 then
      (st.buf_num_p,
       { st with buf_num := fun j => if j = st.buf_num_p then int16wrap v else st.buf_num j,
                 buf_num_p := st.buf_num_p + 1 })
    else (0, st)

/-- `alloc_index_ptr` of lv_style.c: find-or-add on `buf_ptr` with capacity
check `buf_ptr_p < 16`. -/
def alloc_index_ptr (st : StyleTables) (v : Nat) : Nat × StyleTables :=
  match (scanIndices st.buf_ptr_p).find? (fun i => st.buf_ptr i == v) with
  | some i => (i, st)
  | none =>
    if st.buf_ptr_p < 16 then
      (st.buf_ptr_p,
       { st with buf_ptr := fun j => if j = st.buf_ptr_p then v else st.buf_ptr j,
                 buf_ptr_p := st.buf_ptr_p + 1 })
    else (0, st)

/-- The scan loop of `alloc_index_color`, recording the indices it reads in
order: on a hit it has read up to the hit index, on a miss it has read every
scanned index. -/
def scanHits (buf : Nat → Nat) (v : Nat) : List Nat → Option Nat × List Nat
  | [] => (none, [])
  | i :: is =>
    if buf i == v then (some i, [i])
    else
      let r := scanHits buf v is
      (r.1, i :: r.2)

/-- `alloc_index_color` of lv_style.c.  Transcribed faithfully: the guard of
the append branch is `if(buf_color_p)` in the source, i.e. `0 < buf_color_p`,
NOT a capacity check against the declared size 16 of `buf_color`.  The third
component records every index of `buf_color` the call reads or writes, so that
bounds claims about the 16-element array can be stated. -/
def alloc_index_color (st : StyleTables) (v : Nat) : Nat × StyleTables × List Nat :=
  let s := scanHits st.buf_color v (scanIndices st.buf_color_p)
  match s.1 with
  | some i => (i, st, s.2)
  | none =>
    if 0 < st.buf_color_p then
      (st.buf_color_p,
       { st with buf_color := fun j => if j = st.buf_color_p then v else st.buf_color j,
                 buf_color_p := st.buf_color_p + 1 },
       s.2 ++ [st.buf_color_p])
    else (0, st, s.2)

/-- The `has` bitfield block of `lv_style_ext_t`, restricted to the modelled
properties. -/
structure StyleExtHas where
  radius : Bool := false
  transition : Bool := false
  bg_color : Bool := false
  pad_top : Bool := false
  pad_right : Bool := false
  text_letter_space : Bool := false
  text_line_space : Bool := false
  line_width : Bool := false
  content_ofs_x : Bool := false
  content_ofs_y : Bool := false
deriving DecidableEq

/-- The per-instance `lv_style_ext_t` overflow storage, restricted to the
modelled properties; zero-initialised as by `_lv_memset_00`. -/
structure StyleExt where
  radius : Int := 0
  transition : Nat := 0
  bg_color : Nat := 0
  pad_top : Int := 0
  pad_right : Int := 0
  text_letter_space : Int := 0
  text_line_space : Int := 0
  line_width : Int := 0
  content_ofs_x : Int := 0
  content_ofs_y : Int := 0
  has : StyleExtHas := {}
deriving DecidableEq

/-- `lv_style_t`, restricted to the modelled properties: per-property slot
index fields (0 meaning not indexed), the inline value/flag pairs, the
`dont_index` control bit and the optional `ext` overflow block.  Defaults model
the `_lv_memset_00` of `lv_style_init`. -/
structure LvStyle where
  radius : Nat := 0
  transition : Nat := 0
  bg_color : Nat := 0
  pad_top : Nat := 0
  pad_right : Nat := 0
  line_width : Nat := 0
  border_post : Int := 0
  has_border_post : Bool := false
  clip_corner : Int := 0
  has_clip_corner : Bool := false
  dont_index : Bool := false
  ext : Option StyleExt := none
deriving DecidableEq

/-- `lv_style_value_t`: a union of a number, a pointer and a color; the caller
sets the field the property uses. -/
structure LvStyleValue where
  num : Int := 0
  ptr : Nat := 0
  color : Nat := 0
deriving DecidableEq

/-- The value written through the out-parameter of `get_prop`, tagged by which
union field the source assigns. -/
inductive StyleGot where
  | num (n : Int)
  | ptr (p : Nat)
  | color (c : Nat)
deriving DecidableEq

/-- The subset of `lv_style_prop_t` modelled here.  It includes every property
named by the claims (PAD_RIGHT, TEXT_LINE_SPACE, LINE_WIDTH, CONTENT_OFS_Y,
BORDER_POST, RADIUS) together with healthy representatives of each storage
kind, and BG_COLOR_FILTERED as a property `remove_prop` does not recognise. -/
inductive LvStyleProp where
  | RADIUS
  | CLIP_CORNER
  | TRANSITION
  | PAD_TOP
  | PAD_RIGHT
  | BG_COLOR
  | BG_COLOR_FILTERED
  | BORDER_POST
  | TEXT_LETTER_SPACE
  | TEXT_LINE_SPACE
  | LINE_WIDTH
  | CONTENT_OFS_X
  | CONTENT_OFS_Y
deriving DecidableEq

/-- `lv_style_init` of lv_style.c: zero the style (`_lv_memset_00`). -/
def lv_style_init : LvStyle := {}

/-- `_alloc_ext` of lv_style.c: allocate the zeroed ext block if absent. -/
def _alloc_ext (style : LvStyle) : LvStyle :=
  match style.ext with
  | some _ => style
  | none => { style with ext := some {} }

/-- The `_alloc_ext(style); style->ext->field = v;` idiom of set_prop: ensure
ext exists and update it. -/
def extUpd (style : LvStyle) (f : StyleExt → StyleExt) : LvStyle :=
  match (_alloc_ext style).ext with
  | some e => { style with ext := some (f e) }
  | none => style

/-- The `if(style->ext) style->ext->has.field = 0;` idiom of remove_prop. -/
def extHasUpd (style : LvStyle) (f : StyleExtHas → StyleExtHas) : LvStyle :=
  match style.ext with
  | some e => { style with ext := some { e with has := f e.has } }
  | none => style

/-- `set_prop` of lv_style.c restricted to the modelled properties, transcribed
case by case.  Indexable properties try `alloc_index_num` / `_ptr` / `_color`
(skipped when `dont_index` is set) and fall back to the ext block with the slot
index reset to 0 when the returned index is 0; inline properties set their
value and flag; ext-only properties go straight to the ext block; a property
without a case (BG_COLOR_FILTERED) leaves everything unchanged. -/
def set_prop (st : StyleTables) (style : LvStyle) (prop : LvStyleProp)
    (value : LvStyleValue) : StyleTables × LvStyle :=
  match prop with
  | .RADIUS =>
    let r := if style.dont_index then (0, st) else alloc_index_num st value.num
    if r.1 > 0 then (r.2, { style with radius := r.1 })
    else (r.2, { extUpd style (fun e =>
      { e with radius := value.num, has := { e.has with radius := true } }) with radius := 0 })
  | .CLIP_CORNER =>
    (st, { style with clip_corner := value.num, has_clip_corner := true })
  | .TRANSITION =>
    let r := if style.dont_index then (0, st) else alloc_index_ptr st value.ptr
    if r.1 > 0 then (r.2, { style with transition := r.1 })
    else (r.2, { extUpd style (fun e =>
      { e with transition := value.ptr, has := { e.has with transition := true } }) with
        transition := 0 })
  | .PAD_TOP =>
    let r := if style.dont_index then (0, st) else alloc_index_num st value.num
    if r.1 > 0 then (r.2, { style with pad_top := r.1 })
    else (r.2, { extUpd style (fun e =>
      { e with pad_top := value.num, has := { e.has with pad_top := true } }) with pad_top := 0 })
  | .PAD_RIGHT =>
    let r := if style.dont_index then (0, st) else alloc_index_num st value.num
    if r.1 > 0 then (r.2, { style with pad_right := r.1 })
    else (r.2, { extUpd style (fun e =>
      { e with pad_right := value.num, has := { e.has with pad_right := true } }) with
        pad_right := 0 })
  | .BG_COLOR =>
    let r := if style.dont_index then (0, st) else
      ((alloc_index_color st value.color).1, (alloc_index_color st value.color).2.1)
    if r.1 > 0 then (r.2, { style with bg_color := r.1 })
    else (r.2, { extUpd style (fun e =>
      { e with bg_color := value.color, has := { e.has with bg_color := true } }) with
        bg_color := 0 })
  | .BG_COLOR_FILTERED => (st, style)
  | .BORDER_POST =>
    (st, { style with border_post := value.num, has_border_post := true })
  | .TEXT_LETTER_SPACE =>
    (st, extUpd style (fun e =>
      { e with text_letter_space := value.num,
               has := { e.has with text_letter_space := true } }))
  | .TEXT_LINE_SPACE =>
    (st, extUpd style (fun e =>
      { e with text_line_space := value.num,
               has := { e.has with text_line_space := true } }))
  | .LINE_WIDTH =>
    let r := if style.dont_index then (0, st) else alloc_index_num st value.num
    if r.1 > 0 then (r.2, { style with line_width := r.1 })
    else (r.2, { extUpd style (fun e =>
      { e with line_width := value.num, has := { e.has with line_width := true } }) with
        line_width := 0 })
  | .CONTENT_OFS_X =>
    (st, extUpd style (fun e =>
      { e with content_ofs_x := value.num, has := { e.has with content_ofs_x := true } }))
  | .CONTENT_OFS_Y =>
    (st, extUpd style (fun e =>
      { e with content_ofs_y := value.num, has := { e.has with content_ofs_y := true } }))

/-- `get_prop` of lv_style.c restricted to the modelled properties, transcribed
case by case including its anomalies: the PAD_RIGHT ext branch tests
`has.pad_top`, the TEXT_LINE_SPACE branch tests `has.text_letter_space`, the
LINE_WIDTH ext branch returns the `has.line_width` bit as the value, the
CONTENT_OFS_Y branch returns `content_ofs_x`, and BORDER_POST tests the stored
value instead of `has_border_post`. -/
def get_prop (st : StyleTables) (style : LvStyle) (prop : LvStyleProp) : Option StyleGot :=
  match prop with
  | .RADIUS =>
    if style.radius ≠ 0 then some (.num (st.buf_num style.radius))
    else match style.ext with
      | some e => if e.has.radius then some (.num e.radius) else none
      | none => none
  | .CLIP_CORNER =>
    if style.has_clip_corner then some (.num style.clip_corner) else none
  | .TRANSITION =>
    if style.transition ≠ 0 then some (.ptr (st.buf_ptr style.transition))
    else match style.ext with
      | some e => if e.has.transition then some (.ptr e.transition) else none
      | none => none
  | .PAD_TOP =>
    if style.pad_top ≠ 0 then some (.num (st.buf_num style.pad_top))
    else match style.ext with
      | some e => if e.has.pad_top then some (.num e.pad_top) else none
      | none => none
  | .PAD_RIGHT =>
    if style.pad_right ≠ 0 then some (.num (st.buf_num style.pad_right))
    else match style.ext with
      | some e => if e.has.pad_top then some (.num e.pad_right) else none
      | none => none
  | .BG_COLOR =>
    if style.bg_color ≠ 0 then some (.color (st.buf_color style.bg_color))
    else match style.ext with
      | some e => if e.has.bg_color then some (.color e.bg_color) else none
      | none => none
  | .BG_COLOR_FILTERED =>
    if style.bg_color ≠ 0 then some (.color (st.buf_color style.bg_color))
    else match style.ext with
      | some e => if e.has.bg_color then some (.color e.bg_color) else none
      | none => none
  | .BORDER_POST =>
    if style.border_post ≠ 0 then some (.num style.border_post) else none
  | .TEXT_LETTER_SPACE =>
    match style.ext with
    | some e => if e.has.text_letter_space then some (.num e.text_letter_space) else none
    | none => none
  | .TEXT_LINE_SPACE =>
    match style.ext with
    | some e => if e.has.text_letter_space then some (.num e.text_line_space) else none
    | none => none
  | .LINE_WIDTH =>
    if style.line_width ≠ 0 then some (.num (st.buf_num style.line_width))
    else match style.ext with
      | some e => if e.has.line_width then some (.num (if e.has.line_width then 1 else 0))
                  else none
      | none => none
  | .CONTENT_OFS_X =>
    match style.ext with
    | some e => if e.has.content_ofs_x then some (.num e.content_ofs_x) else none
    | none => none
  | .CONTENT_OFS_Y =>
    match style.ext with
    | some e => if e.has.content_ofs_y then some (.num e.content_ofs_x) else none
    | none => none

/-- `remove_prop` of lv_style.c restricted to the modelled properties: clear
the slot index (where one exists) and the ext has-flag (guarded by
`if(style->ext)`), or the inline flag; the default case returns false and
leaves the style unchanged. -/
def remove_prop (style : LvStyle) (prop : LvStyleProp) : LvStyle × Bool :=
  match prop with
  | .RADIUS =>
    ({ extHasUpd style (fun h => { h with radius := false }) with radius := 0 }, true)
  | .CLIP_CORNER => ({ style with has_clip_corner := false }, true)
  | .TRANSITION =>
    ({ extHasUpd style (fun h => { h with transition := false }) with transition := 0 }, true)
  | .PAD_TOP =>
    ({ extHasUpd style (fun h => { h with pad_top := false }) with pad_top := 0 }, true)
  | .PAD_RIGHT =>
    ({ extHasUpd style (fun h => { h with pad_right := false }) with pad_right := 0 }, true)
  | .BG_COLOR =>
    ({ extHasUpd style (fun h => { h with bg_color := false }) with bg_color := 0 }, true)
  | .BG_COLOR_FILTERED => (style, false)
  | .BORDER_POST => ({ style with has_border_post := false }, true)
  | .TEXT_LETTER_SPACE =>
    (extHasUpd style (fun h => { h with text_letter_space := false }), true)
  | .TEXT_LINE_SPACE =>
    (extHasUpd style (fun h => { h with text_line_space := false }), true)
  | .LINE_WIDTH =>
    ({ extHasUpd style (fun h => { h with line_width := false }) with line_width := 0 }, true)
  | .CONTENT_OFS_X =>
    (extHasUpd style (fun h => { h with content_ofs_x := false }), true)
  | .CONTENT_OFS_Y =>
    (extHasUpd style (fun h => { h with content_ofs_y := false }), true)

/-- The interning tables at process start: all buffers zeroed, all fill
pointers 1, matching the static initialisers of lv_style.c. -/
def initTables : StyleTables :=
  { buf_num := fun _ => 0, buf_ptr := fun _ => 0, buf_color := fun _ => 0,
    buf_num_p := 1, buf_ptr_p := 1, buf_color_p := 1 }

/-- The numeric interning table after interning the 31 distinct values
1..31: `buf_num_p` is 32, so the table is full. -/
def stFullNum : StyleTables :=
  (List.range' 1 31).foldl (fun st v => (alloc_index_num st (Int.ofNat v)).2) initTables

/-- `stFullNum` with the pointer table also filled with the 15 distinct
pointers 1..15: `buf_ptr_p` is 16, so both bounded tables are full. -/
def stFullBoth : StyleTables :=
  (List.range' 1 15).foldl (fun st v => (alloc_index_ptr st v).2) stFullNum

/-- The color interning table after interning the 15 distinct colors
100..114: `buf_color_p` is 16, so every slot of the declared 16-element array
is occupied. -/
def stColorFull : StyleTables :=
  (List.range' 100 15).foldl (fun st v => (alloc_index_color st v).2.1) initTables

/-- Interning tables seeded with number 7, pointer 9 and color 11, used to
instantiate the find-or-add theorem. -/
def stSeeded : StyleTables :=
  (alloc_index_color ((alloc_index_ptr ((alloc_index_num initTables 7).2) 9).2) 11).2.1

theorem totalUsage_append (l₁ l₂ : List CacheEntry) :
    totalUsage (l₁ ++ l₂) = totalUsage l₁ + totalUsage l₂ := by
  induction l₁ with
  | nil => simp [totalUsage]
  | cons e es ih => simp [totalUsage, ih, Nat.add_assoc]

theorem totalUsage_filter_le (p : CacheEntry → Bool) (l : List CacheEntry) :
    totalUsage (l.filter p) ≤ totalUsage l := by
  induction l with
  | nil => simp [totalUsage]
  | cons e es ih =>
    by_cases h : p e
    · simp [List.filter, h, totalUsage]
      exact ih
    · simp [List.filter, h, totalUsage]
      exact Nat.le_trans ih (Nat.le_add_left _ _)

theorem totalUsage_map_eq (f : CacheEntry → CacheEntry)
    (hf : ∀ e, (f e).memory_usage = e.memory_usage) (l : List CacheEntry) :
    totalUsage (l.map f) = totalUsage l := by
  induction l with
  | nil => rfl
  | cons e es ih => simp [totalUsage, ih, hf]

theorem extractVictim_usage_le (m : Int) :
    ∀ (pool : List CacheEntry) (v : CacheEntry) (pool' : List CacheEntry),
      extractVictim m pool = some (v, pool') → totalUsage pool' ≤ totalUsage pool := by
  intro pool
  induction pool with
  | nil => intro v pool' h; simp [extractVictim] at h
  | cons e es ih =>
    intro v pool' h
    simp only [extractVictim] at h
    split at h
    · cases h
      simp [totalUsage]
    · cases hrec : extractVictim m es with
      | none => rw [hrec] at h; cases h
      | some r =>
        rw [hrec] at h
        obtain ⟨v₀, es'⟩ := r
        injection h with h1
        injection h1 with hv hp
        subst hv
        subst hp
        simp only [totalUsage]
        exact Nat.add_le_add_left (ih _ _ hrec) _

theorem evictOne_usage_le (pool : List CacheEntry) (v : CacheEntry) (pool' : List CacheEntry)
    (h : evictOne pool = some (v, pool')) : totalUsage pool' ≤ totalUsage pool := by
  unfold evictOne at h
  cases hm : minUnpinnedLife pool with
  | none => rw [hm] at h; cases h
  | some m => rw [hm] at h; exact extractVictim_usage_le m pool v pool' h

theorem evictUntilFits_usage_le (fuel maxSize mu : Nat) (pool : List CacheEntry) :
    totalUsage (evictUntilFits fuel maxSize mu pool) ≤ totalUsage pool := by
  induction fuel generalizing pool with
  | zero => simp [evictUntilFits]
  | succ fuel ih =>
    simp only [evictUntilFits]
    split
    · exact Nat.le_refl _
    · cases he : evictOne pool with
      | none => exact Nat.le_refl _
      | some r =>
        cases r with
        | mk v pool' =>
          exact Nat.le_trans (ih pool') (evictOne_usage_le pool v pool' he)

theorem stepOp_budget (s : CacheState) (op : CacheOp)
    (h : totalUsage s.pool ≤ s.max_size) :
    totalUsage (stepOp s op).pool ≤ (stepOp s op).max_size ∧
      (stepOp s op).max_size = s.max_size := by
  cases op with
  | add d sz mu w =>
    simp only [stepOp, lv_cache_add]
    split
    · rename_i hfit
      refine ⟨?_, rfl⟩
      simpa [totalUsage_append, totalUsage] using hfit
    · exact ⟨Nat.le_trans (evictUntilFits_usage_le _ _ _ _) h, rfl⟩
  | invalidate eid =>
    exact ⟨Nat.le_trans (totalUsage_filter_le _ _) h, rfl⟩
  | getData eid =>
    refine ⟨?_, rfl⟩
    simp only [stepOp, lv_cache_get_data]
    rw [totalUsage_map_eq]
    · exact h
    · intro e; split <;> rfl
  | release eid =>
    refine ⟨?_, rfl⟩
    simp only [stepOp, lv_cache_release]
    rw [totalUsage_map_eq]
    · exact h
    · intro e; split <;> rfl
  | empty =>
    exact ⟨Nat.le_trans (totalUsage_filter_le _ _) h, rfl⟩

theorem cacheRun_budget_aux (ops : List CacheOp) :
    ∀ (s : CacheState), totalUsage s.pool ≤ s.max_size →
      totalUsage (cacheRun s ops).pool ≤ (cacheRun s ops).max_size ∧
        (cacheRun s ops).max_size = s.max_size := by
  induction ops with
  | nil => intro s h; exact ⟨h, rfl⟩
  | cons op ops ih =>
    intro s h
    have h1 := stepOp_budget s op h
    have h2 := ih (stepOp s op) h1.1
    exact ⟨h2.1, h2.2.trans h1.2⟩

/-- C1: budget invariant.  For every sequence of cache add, invalidate, get-data,
release and empty operations starting from a freshly initialised manager with
budget `M`, the sum of `memory_usage` over the tracked (non-temporary) entries is
at most `M` after each operation completes (every prefix of a trace is itself a
trace, so the bound holds after each step), and the budget itself is unchanged
by these operations. -/
theorem cache_budget_invariant (M : Nat) (ops : List CacheOp) :
    totalUsage (cacheRun (initCache M) ops).pool ≤ M ∧
      (cacheRun (initCache M) ops).max_size = M := by
  have h := cacheRun_budget_aux ops (initCache M) (by simp [initCache, totalUsage])
  have hmax : (cacheRun (initCache M) ops).max_size = M := by
    simpa [initCache] using h.2
  exact ⟨Nat.le_trans h.1 (Nat.le_of_eq hmax), hmax⟩

theorem extractVictim_mem (m : Int) :
    ∀ (pool : List CacheEntry) (v : CacheEntry) (pool' : List CacheEntry) (e : CacheEntry),
      extractVictim m pool = some (v, pool') → e ∈ pool → e.usage_count ≠ 0 → e ∈ pool' := by
  intro pool
  induction pool with
  | nil => intro v pool' e h _ _; simp [extractVictim] at h
  | cons a es ih =>
    intro v pool' e h hmem hpin
    simp only [extractVictim] at h
    split at h
    · rename_i hpred
      cases h
      rcases List.mem_cons.mp hmem with he | he
      · subst he
        exfalso
        simp only [Bool.and_eq_true, beq_iff_eq] at hpred
        exact hpin hpred.1
      · exact he
    · cases hrec : extractVictim m es with
      | none => rw [hrec] at h; cases h
      | some r =>
        rw [hrec] at h
        obtain ⟨v₀, es'⟩ := r
        injection h with h1
        injection h1 with hv hp
        subst hv
        subst hp
        rcases List.mem_cons.mp hmem with he | he
        · subst he; exact List.mem_cons_self _ _
        · exact List.mem_cons_of_mem _ (ih _ _ _ hrec he hpin)

theorem evictOne_mem (pool : List CacheEntry) (v : CacheEntry) (pool' : List CacheEntry)
    (e : CacheEntry) (h : evictOne pool = some (v, pool')) (hmem : e ∈ pool)
    (hpin : e.usage_count ≠ 0) : e ∈ pool' := by
  unfold evictOne at h
  cases hm : minUnpinnedLife pool with
  | none => rw [hm] at h; cases h
  | some m => rw [hm] at h; exact extractVictim_mem m pool v pool' e h hmem hpin

theorem evictUntilFits_mem (fuel maxSize mu : Nat) (pool : List CacheEntry)
    (e : CacheEntry) (hmem : e ∈ pool) (hpin : e.usage_count ≠ 0) :
    e ∈ evictUntilFits fuel maxSize mu pool := by
  induction fuel generalizing pool with
  | zero => simpa [evictUntilFits] using hmem
  | succ fuel ih =>
    simp only [evictUntilFits]
    split
    · exact hmem
    · cases he : evictOne pool with
      | none => exact hmem
      | some r =>
        obtain ⟨v, pool'⟩ := r
        exact ih pool' (evictOne_mem pool v pool' e he hmem hpin)

/-- C2: pin safety.  While an entry has usage_count greater than zero, no
operation (eviction inside add, invalidate, release, get-data, or empty)
removes or frees that entry from the tracked pool: after any single operation
an entry with the same id is still tracked.  An entry can be dropped only when
its usage_count is zero. -/
theorem cache_pin_safety (s : CacheState) (op : CacheOp) (e : CacheEntry)
    (hmem : e ∈ s.pool) (hpin : 0 < e.usage_count) :
    ∃ e', e' ∈ (stepOp s op).pool ∧ e'.eid = e.eid := by
  have hpin' : e.usage_count ≠ 0 := Nat.pos_iff_ne_zero.mp hpin
  cases op with
  | add d sz mu w =>
    refine ⟨e, ?_, rfl⟩
    simp only [stepOp, lv_cache_add]
    have h1 : e ∈ evictUntilFits s.pool.length s.max_size mu s.pool :=
      evictUntilFits_mem _ _ _ _ e hmem hpin'
    split
    · exact List.mem_append_left _ h1
    · exact h1
  | invalidate eid =>
    refine ⟨e, ?_, rfl⟩
    simp only [stepOp, lv_cache_invalidate]
    apply List.mem_filter.mpr
    exact ⟨hmem, by simp [hpin']⟩
  | getData eid =>
    simp only [stepOp, lv_cache_get_data]
    refine ⟨_, List.mem_map_of_mem _ hmem, ?_⟩
    dsimp only
    split <;> rfl
  | release eid =>
    simp only [stepOp, lv_cache_release]
    refine ⟨_, List.mem_map_of_mem _ hmem, ?_⟩
    dsimp only
    split <;> rfl
  | empty =>
    refine ⟨e, ?_, rfl⟩
    simp only [stepOp, lv_cache_empty]
    apply List.mem_filter.mpr
    exact ⟨hmem, by simp [hpin']⟩

/-- Witness for C2: a concretely pinned entry survives the empty operation. -/
theorem cache_pin_safety_witness :
    pinnedEntryW ∈ pinnedStateW.pool ∧ 0 < pinnedEntryW.usage_count ∧
      ∃ e', e' ∈ (stepOp pinnedStateW CacheOp.empty).pool ∧ e'.eid = pinnedEntryW.eid :=
  ⟨by decide, by decide,
    cache_pin_safety pinnedStateW CacheOp.empty pinnedEntryW (by decide) (by decide)⟩

/-- C3: find correctness.  `lv_cache_find` leaves the cache state unchanged
(in particular it changes no usage_count and no life), and it returns an entry E
exactly when E is a tracked entry with `E.data_size` equal to the requested size
and `compare_cb` accepting the data; entries whose data_size differs from the
request are never returned regardless of content, and a none result means no
tracked entry matches. -/
theorem cache_find_correct (cmp : Nat → Nat → Nat → Bool) (s : CacheState) (d sz : Nat) :
    (lv_cache_find cmp s d sz).2 = s ∧
    (∀ e, (lv_cache_find cmp s d sz).1 = some e →
       e ∈ s.pool ∧ e.data_size = sz ∧ cmp e.data d sz = true) ∧
    ((lv_cache_find cmp s d sz).1 = none →
       ∀ e ∈ s.pool, ¬(e.data_size = sz ∧ cmp e.data d sz = true)) := by
  refine ⟨rfl, ?_, ?_⟩
  · intro e he
    simp only [lv_cache_find] at he
    have hmem := List.mem_of_find?_eq_some he
    have hp := List.find?_some he
    simp only [Bool.and_eq_true, beq_iff_eq] at hp
    exact ⟨hmem, hp.1, hp.2⟩
  · intro hnone e hmem
    simp only [lv_cache_find] at hnone
    have h := List.find?_eq_none.mp hnone e hmem
    simp only [Bool.and_eq_true, beq_iff_eq] at h
    exact h

/-- Witness for C3: the find theorem evaluated on a concrete cache state. -/
theorem cache_find_correct_witness :
    (lv_cache_find (fun a b _ => a == b) pinnedStateW 1 4).2 = pinnedStateW :=
  (cache_find_correct (fun a b _ => a == b) pinnedStateW 1 4).1

theorem extractVictim_subset (m : Int) :
    ∀ (pool : List CacheEntry) (v : CacheEntry) (pool' : List CacheEntry) (x : CacheEntry),
      extractVictim m pool = some (v, pool') → x ∈ pool' → x ∈ pool := by
  intro pool
  induction pool with
  | nil => intro v pool' x h; simp [extractVictim] at h
  | cons a es ih =>
    intro v pool' x h hx
    simp only [extractVictim] at h
    split at h
    · cases h
      exact List.mem_cons_of_mem _ hx
    · cases hrec : extractVictim m es with
      | none => rw [hrec] at h; cases h
      | some r =>
        rw [hrec] at h
        obtain ⟨v₀, es'⟩ := r
        injection h with h1
        injection h1 with hv hp
        subst hv
        subst hp
        rcases List.mem_cons.mp hx with rfl | hx
        · exact List.mem_cons_self _ _
        · exact List.mem_cons_of_mem _ (ih _ _ _ hrec hx)

theorem evictUntilFits_subset (fuel maxSize mu : Nat) (pool : List CacheEntry)
    (x : CacheEntry) (hx : x ∈ evictUntilFits fuel maxSize mu pool) : x ∈ pool := by
  induction fuel generalizing pool with
  | zero => simpa [evictUntilFits] using hx
  | succ fuel ih =>
    simp only [evictUntilFits] at hx
    split at hx
    · exact hx
    · cases he : evictOne pool with
      | none => rw [he] at hx; exact hx
      | some r =>
        rw [he] at hx
        obtain ⟨v, pool'⟩ := r
        have h1 := ih pool' hx
        unfold evictOne at he
        cases hm : minUnpinnedLife pool with
        | none => rw [hm] at he; cases he
        | some m =>
          rw [hm] at he
          exact extractVictim_subset m pool v pool' x he h1

theorem find_not_temporary (cmp : Nat → Nat → Nat → Bool) (s : CacheState) (d0 sz0 : Nat)
    (x : CacheEntry) (hp : ∀ y ∈ s.pool, y.temporary = false)
    (hx : (lv_cache_find cmp s d0 sz0).1 = some x) : x.temporary = false :=
  hp x (List.mem_of_find?_eq_some hx)

/-- C4: temporary-entry fallback.  `lv_cache_add` always returns an entry (never
null): either the entry is tracked and non-temporary, or it is marked temporary,
is not in the tracked pool and its single release immediately frees it.  The
pool never contains temporary entries, so a subsequent find never returns a
temporary entry, and the entry is temporary exactly when the requested memory
still does not fit the budget after the eviction pass. -/
theorem cache_add_temporary (s : CacheState) (d sz mu w : Nat) (e : CacheEntry)
    (s' : CacheState) (hpool : ∀ x ∈ s.pool, x.temporary = false)
    (hadd : lv_cache_add s d sz mu w = (e, s')) :
    ((e ∈ s'.pool ∧ e.temporary = false) ∨
      (e.temporary = true ∧ e ∉ s'.pool ∧ lv_cache_release_entry s' e = (s', true))) ∧
    (∀ x ∈ s'.pool, x.temporary = false) ∧
    (∀ cmp d0 sz0 x, (lv_cache_find cmp s' d0 sz0).1 = some x → x.temporary = false) ∧
    (e.temporary = true ↔
      ¬(totalUsage (evictUntilFits s.pool.length s.max_size mu s.pool) + mu ≤ s.max_size)) := by
  simp only [lv_cache_add] at hadd
  by_cases hfit : totalUsage (evictUntilFits s.pool.length s.max_size mu s.pool) + mu ≤ s.max_size
  · rw [if_pos hfit] at hadd
    injection hadd with he hs
    subst he
    subst hs
    have hall : ∀ x ∈ evictUntilFits s.pool.length s.max_size mu s.pool ++
        [({ data := d, data_size := sz, memory_usage := mu, weight := w, life := 0,
            usage_count := 0, temporary := false, eid := s.nextId } : CacheEntry)],
        x.temporary = false := by
      intro x hx
      rcases List.mem_append.mp hx with hx | hx
      · exact hpool x (evictUntilFits_subset _ _ _ _ x hx)
      · rcases List.mem_singleton.mp hx with rfl
        rfl
    refine ⟨Or.inl ⟨?_, rfl⟩, hall, ?_, by simp [hfit]⟩
    · exact List.mem_append_right _ (List.mem_singleton.mpr rfl)
    · intro cmp d0 sz0 x hx
      exact find_not_temporary cmp _ d0 sz0 x hall hx
  · rw [if_neg hfit] at hadd
    injection hadd with he hs
    subst he
    subst hs
    have hall : ∀ x ∈ evictUntilFits s.pool.length s.max_size mu s.pool, x.temporary = false :=
      fun x hx => hpool x (evictUntilFits_subset _ _ _ _ x hx)
    refine ⟨Or.inr ⟨rfl, ?_, ?_⟩, hall, ?_, by simp [hfit]⟩
    · intro hmem
      exact absurd (hall _ hmem) (by simp)
    · simp [lv_cache_release_entry]
    · intro cmp d0 sz0 x hx
      exact find_not_temporary cmp _ d0 sz0 x hall hx

/-- Witness for C4: adding a 50-byte entry to an empty 10-byte cache yields a
temporary entry that is not tracked and whose release frees it at once. -/
theorem cache_add_temporary_witness :
    lv_cache_add (initCache 10) 1 4 50 1 = (tempEntryW, tempStateW) ∧
      ((tempEntryW ∈ tempStateW.pool ∧ tempEntryW.temporary = false) ∨
        (tempEntryW.temporary = true ∧ tempEntryW ∉ tempStateW.pool ∧
          lv_cache_release_entry tempStateW tempEntryW = (tempStateW, true))) :=
  ⟨by decide,
    (cache_add_temporary (initCache 10) 1 4 50 1 tempEntryW tempStateW (by decide)
      (by decide)).1⟩

theorem foldl_min_le (l : List CacheEntry) (init : Int) :
    l.foldl (fun m x => min m x.life) init ≤ init ∧
      ∀ x ∈ l, l.foldl (fun m x => min m x.life) init ≤ x.life := by
  induction l generalizing init with
  | nil => exact ⟨le_refl _, by intro x hx; cases hx⟩
  | cons a as ih =>
    constructor
    · exact le_trans (ih (min init a.life)).1 (min_le_left _ _)
    · intro x hx
      rcases List.mem_cons.mp hx with rfl | hx
      · exact le_trans (ih (min init x.life)).1 (min_le_right _ _)
      · exact (ih (min init a.life)).2 x hx

theorem minUnpinnedLife_le (pool : List CacheEntry) (m : Int)
    (h : minUnpinnedLife pool = some m) :
    ∀ e ∈ pool, e.usage_count = 0 → m ≤ e.life := by
  intro e hmem hu
  unfold minUnpinnedLife at h
  cases hf : pool.filter (fun e => e.usage_count == 0) with
  | nil => rw [hf] at h; cases h
  | cons a as =>
    rw [hf] at h
    injection h with hm
    subst hm
    have hmemf : e ∈ pool.filter (fun e => e.usage_count == 0) :=
      List.mem_filter.mpr ⟨hmem, by simp [hu]⟩
    rw [hf] at hmemf
    rcases List.mem_cons.mp hmemf with rfl | he
    · exact (foldl_min_le as e.life).1
    · exact (foldl_min_le as a.life).2 e he

theorem extractVictim_split (m : Int) :
    ∀ (pool : List CacheEntry) (v : CacheEntry) (pool' : List CacheEntry),
      extractVictim m pool = some (v, pool') →
      v.usage_count = 0 ∧ v.life = m ∧
        ∃ l₁ l₂, pool = l₁ ++ v :: l₂ ∧ pool' = l₁ ++ l₂ ∧
          ∀ e ∈ l₁, ¬(e.usage_count = 0 ∧ e.life = m) := by
  intro pool
  induction pool with
  | nil => intro v pool' h; simp [extractVictim] at h
  | cons a es ih =>
    intro v pool' h
    simp only [extractVictim] at h
    split at h
    · rename_i hpred
      simp only [Bool.and_eq_true, beq_iff_eq] at hpred
      injection h with h1
      injection h1 with hv hp
      subst hv
      subst hp
      exact ⟨hpred.1, hpred.2, [], es, by simp, by simp, by intro e he; cases he⟩
    · rename_i hpred
      cases hrec : extractVictim m es with
      | none => rw [hrec] at h; cases h
      | some r =>
        rw [hrec] at h
        obtain ⟨v₀, es'⟩ := r
        injection h with h1
        injection h1 with hv hp
        subst hv
        subst hp
        obtain ⟨hu, hl, l₁, l₂, hpe, hpe', hpre⟩ := ih _ _ hrec
        refine ⟨hu, hl, a :: l₁, l₂, by simp [hpe], by simp [hpe'], ?_⟩
        intro e he
        rcases List.mem_cons.mp he with rfl | he
        · intro hcon
          exact hpred (by simp [hcon.1, hcon.2])
        · exact hpre e he

/-- C5: eviction order.  Whenever the eviction step of add removes an entry, the
removed entry is an unpinned tracked entry of minimum life among unpinned
entries, and it is the oldest-inserted among those attaining the minimum (every
unpinned entry before it in insertion order has strictly larger life).  In
particular, Scenario A of the spec holds: with max_size 100, after adding E1
(usage 60, weight 1) and then E2 (usage 60, weight 1), E1 is evicted and only E2
(the entry with id 1) remains tracked with total usage 60. -/
theorem cache_eviction_order (pool : List CacheEntry) (v : CacheEntry)
    (pool' : List CacheEntry) (h : evictOne pool = some (v, pool')) :
    (v.usage_count = 0 ∧
      (∀ e ∈ pool, e.usage_count = 0 → v.life ≤ e.life) ∧
      ∃ l₁ l₂, pool = l₁ ++ v :: l₂ ∧ pool' = l₁ ++ l₂ ∧
        ∀ e ∈ l₁, e.usage_count = 0 → v.life < e.life) ∧
    ((cacheRun (initCache 100) [CacheOp.add 1 4 60 1, CacheOp.add 2 4 60 1]).pool.map
        (fun e => e.eid) = [1] ∧
      totalUsage (cacheRun (initCache 100)
        [CacheOp.add 1 4 60 1, CacheOp.add 2 4 60 1]).pool = 60) := by
  constructor
  · unfold evictOne at h
    cases hm : minUnpinnedLife pool with
    | none => rw [hm] at h; cases h
    | some m =>
      rw [hm] at h
      obtain ⟨hu, hl, l₁, l₂, hpe, hpe', hpre⟩ := extractVictim_split m pool v pool' h
      subst hl
      refine ⟨hu, fun e he hu0 => minUnpinnedLife_le pool _ hm e he hu0, l₁, l₂, hpe, hpe', ?_⟩
      intro e he hu0
      have h1 : v.life ≤ e.life :=
        minUnpinnedLife_le pool _ hm e (by rw [hpe]; exact List.mem_append_left _ he) hu0
      have h2 := hpre e he
      rcases lt_or_eq_of_le h1 with hlt | heq
      · exact hlt
      · exact absurd ⟨hu0, heq.symm⟩ h2
  · exact ⟨by decide, by decide⟩

/-- Witness for C5: the eviction-order theorem instantiated at a concrete
one-entry pool whose entry is unpinned. -/
theorem cache_eviction_order_witness :
    evictOne evictPoolW = some (evictVictimW, []) ∧ evictVictimW.usage_count = 0 :=
  ⟨by decide, (cache_eviction_order evictPoolW evictVictimW [] (by decide)).1.1⟩

/-- CounterExample for C6: the claim says a set_prop on an indexable property
with a full table gets allocation result 0 and stores the value in the ext
block.  With the full numeric table produced by interning 1..31 (a reachable
state), setting LV_STYLE_RADIUS to the already-interned value 5 instead gets
the existing index 5 from the allocation, stores the index in `radius`, and
never touches the ext block. -/
theorem style_num_full_counterexample :
    ¬ stFullNum.buf_num_p < 32 ∧
    (alloc_index_num stFullNum 5).1 = 5 ∧
    (set_prop stFullNum lv_style_init .RADIUS { num := 5 }).2.radius = 5 ∧
    (set_prop stFullNum lv_style_init .RADIUS { num := 5 }).2.ext = none := by
  refine ⟨?_, ?_, ?_, ?_⟩ <;> decide

theorem find?_eq_none_of_absent {α : Type} (l : List Nat) (buf : Nat → α) (v : α)
    [DecidableEq α] (h : ∀ i ∈ l, ¬ buf i = v) :
    l.find? (fun i => buf i == v) = none := by
  apply List.find?_eq_none.mpr
  intro i hi
  simp [h i hi]

/-- C6 (amended): the numeric interning table has 32 slots and the pointer
table 16 slots; when the corresponding table is full AND the value is not
already interned in it, the allocation returns index 0 with the table
unchanged, and set_prop on an indexable property silently stores the value in
the per-instance ext block with the slot index reset to 0, with no error
surfaced (shown for LV_STYLE_RADIUS on the numeric table and
LV_STYLE_TRANSITION on the pointer table).  The amendment relative to the
claim: when the full table already holds the value, the existing index is
returned and used instead of the ext fallback. -/
theorem style_interning_capacity_fallback (st : StyleTables) (style : LvStyle)
    (v : Int) (pv : Nat)
    (hnf : ¬ st.buf_num_p < 32)
    (hna : ∀ i ∈ scanIndices st.buf_num_p, ¬ st.buf_num i = v)
    (hpf : ¬ st.buf_ptr_p < 16)
    (hpa : ∀ i ∈ scanIndices st.buf_ptr_p, ¬ st.buf_ptr i = pv) :
    alloc_index_num st v = (0, st) ∧
    alloc_index_ptr st pv = (0, st) ∧
    ((set_prop st style .RADIUS { num := v }).1 = st ∧
      (set_prop st style .RADIUS { num := v }).2.radius = 0 ∧
      ∃ e, (set_prop st style .RADIUS { num := v }).2.ext = some e ∧
        e.radius = v ∧ e.has.radius = true) ∧
    ((set_prop st style .TRANSITION { ptr := pv }).1 = st ∧
      (set_prop st style .TRANSITION { ptr := pv }).2.transition = 0 ∧
      ∃ e, (set_prop st style .TRANSITION { ptr := pv }).2.ext = some e ∧
        e.transition = pv ∧ e.has.transition = true) := by
  have hfindn : (scanIndices st.buf_num_p).find? (fun i => st.buf_num i == v) = none :=
    find?_eq_none_of_absent _ _ _ hna
  have hfindp : (scanIndices st.buf_ptr_p).find? (fun i => st.buf_ptr i == pv) = none :=
    find?_eq_none_of_absent _ _ _ hpa
  have han : alloc_index_num st v = (0, st) := by
    simp [alloc_index_num, hfindn, hnf]
  have hap : alloc_index_ptr st pv = (0, st) := by
    simp [alloc_index_ptr, hfindp, hpf]
  refine ⟨han, hap, ?_, ?_⟩
  · by_cases hdi : style.dont_index <;>
      cases hext : style.ext <;>
        simp [set_prop, hdi, han, extUpd, _alloc_ext, hext]
  · by_cases hdi : style.dont_index <;>
      cases hext : style.ext <;>
        simp [set_prop, hdi, hap, extUpd, _alloc_ext, hext]

/-- Witness for C6 (amended): both bounded tables full with values 1..31 and
1..15 respectively; the absent value 100 gets allocation result 0. -/
theorem style_interning_capacity_fallback_witness :
    ¬ stFullBoth.buf_num_p < 32 ∧ alloc_index_num stFullBoth 100 = (0, stFullBoth) :=
  ⟨by decide,
    (style_interning_capacity_fallback stFullBoth lv_style_init 100 100
      (by decide) (by decide) (by decide) (by decide)).1⟩

/-- C7 (code bug): color interning is indeed unbounded in behavior, but its
accesses do NOT stay inside the declared 16-element `buf_color` array.  With
the reachable state in which the 15 distinct colors 100..114 have been
interned, `buf_color_p` is 16 (every slot of the array used); interning the
fresh color 200 returns the fresh positive index 16 and performs a write at
index 16, which is outside the bounds of `lv_color_t buf_color[16]` (the
source guard `if(buf_color_p)` is always true; the sibling allocators use a
capacity comparison instead). -/
theorem style_color_alloc_out_of_bounds :
    stColorFull.buf_color_p = 16 ∧
    (alloc_index_color stColorFull 200).1 = 16 ∧
    ¬ (∀ i ∈ (alloc_index_color stColorFull 200).2.2, i < 16) := by
  refine ⟨by decide, by decide, by decide⟩

theorem scanHits_fst (buf : Nat → Nat) (v : Nat) (l : List Nat) :
    (scanHits buf v l).1 = l.find? (fun i => buf i == v) := by
  induction l with
  | nil => rfl
  | cons i is ih =>
    by_cases h : (buf i == v) = true <;> simp [scanHits, List.find?, h, ih]

theorem find?_exists_of_present {α : Type} (l : List Nat) (buf : Nat → α) (v : α)
    [DecidableEq α] (h : ∃ i ∈ l, buf i = v) :
    ∃ j, l.find? (fun i => buf i == v) = some j ∧ j ∈ l ∧ buf j = v := by
  obtain ⟨i, hi, hv⟩ := h
  cases hf : l.find? (fun i => buf i == v) with
  | none =>
    exfalso
    exact absurd (by simp [hv]) (List.find?_eq_none.mp hf i hi)
  | some j =>
    refine ⟨j, rfl, List.mem_of_find?_eq_some hf, ?_⟩
    have := List.find?_some hf
    simpa using this

/-- C8: find-or-add idempotence of the interning tables.  For a value already
present in the numeric table, `alloc_index_num` returns the index of the
existing slot with the table unchanged, `lv_style_find_index_num` returns that
same (nonzero) index, and calling the allocation twice yields the same index
and state; the analogous properties hold for the pointer and color tables. -/
theorem style_intern_find_or_add (st : StyleTables) (v : Int) (pv cv : Nat)
    (hnum : ∃ i ∈ scanIndices st.buf_num_p, st.buf_num i = v)
    (hptr : ∃ i ∈ scanIndices st.buf_ptr_p, st.buf_ptr i = pv)
    (hcol : ∃ i ∈ scanIndices st.buf_color_p, st.buf_color i = cv) :
    (alloc_index_num st v = (lv_style_find_index_num st v, st) ∧
      lv_style_find_index_num st v ≠ 0 ∧
      alloc_index_num (alloc_index_num st v).2 v = alloc_index_num st v) ∧
    (alloc_index_ptr st pv = (lv_style_find_index_ptr st pv, st) ∧
      lv_style_find_index_ptr st pv ≠ 0 ∧
      alloc_index_ptr (alloc_index_ptr st pv).2 pv = alloc_index_ptr st pv) ∧
    ((alloc_index_color st cv).1 = lv_style_find_index_color st cv ∧
      (alloc_index_color st cv).2.1 = st ∧
      lv_style_find_index_color st cv ≠ 0 ∧
      (alloc_index_color (alloc_index_color st cv).2.1 cv).1 =
        (alloc_index_color st cv).1) := by
  obtain ⟨jn, hjn, hjnmem, hjnv⟩ := find?_exists_of_present _ _ _ hnum
  obtain ⟨jp, hjp, hjpmem, hjpv⟩ := find?_exists_of_present _ _ _ hptr
  obtain ⟨jc, hjc, hjcmem, hjcv⟩ := find?_exists_of_present _ _ _ hcol
  have hjn0 : 1 ≤ jn := by
    have := List.mem_range'_1.mp hjnmem
    exact this.1
  have hjp0 : 1 ≤ jp := by
    have := List.mem_range'_1.mp hjpmem
    exact this.1
  have hjc0 : 1 ≤ jc := by
    have := List.mem_range'_1.mp hjcmem
    exact this.1
  refine ⟨⟨?_, ?_, ?_⟩, ⟨?_, ?_, ?_⟩, ⟨?_, ?_, ?_, ?_⟩⟩
  · simp [alloc_index_num, lv_style_find_index_num, hjn]
  · simp only [lv_style_find_index_num, hjn]
    omega
  · simp [alloc_index_num, hjn]
  · simp [alloc_index_ptr, lv_style_find_index_ptr, hjp]
  · simp only [lv_style_find_index_ptr, hjp]
    omega
  · simp [alloc_index_ptr, hjp]
  · simp [alloc_index_color, lv_style_find_index_color, scanHits_fst, hjc]
  · simp [alloc_index_color, scanHits_fst, hjc]
  · simp only [lv_style_find_index_color, hjc]
    omega
  · simp [alloc_index_color, scanHits_fst, hjc]

/-- Witness for C8: tables seeded with number 7, pointer 9 and color 11; the
seeded number is found at a nonzero index. -/
theorem style_intern_find_or_add_witness :
    (∃ i ∈ scanIndices stSeeded.buf_num_p, stSeeded.buf_num i = 7) ∧
      lv_style_find_index_num stSeeded 7 ≠ 0 :=
  ⟨by decide,
    (style_intern_find_or_add stSeeded 7 9 11 (by decide) (by decide) (by decide)).1.2.1⟩

/-- C9 (code bug): the set/get round-trip fails for exactly the properties the
claim names.  On a fresh style: LV_STYLE_CONTENT_OFS_Y set to 5 reads back as 0
(get_prop returns `content_ofs_x`), LV_STYLE_TEXT_LINE_SPACE set to 7 reads
back as absent (get_prop tests `has.text_letter_space`).  With the numeric
table full so the ext fallback is taken: LV_STYLE_PAD_RIGHT set to 100 reads
back as absent (get_prop tests `has.pad_top`), LV_STYLE_LINE_WIDTH set to 100
reads back as 1 (get_prop returns the `has.line_width` bit).  For contrast, the
healthy LV_STYLE_PAD_TOP round-trips correctly through the interning table. -/
theorem style_roundtrip_bugs :
    (get_prop (set_prop initTables lv_style_init .CONTENT_OFS_Y { num := 5 }).1
        (set_prop initTables lv_style_init .CONTENT_OFS_Y { num := 5 }).2 .CONTENT_OFS_Y =
      some (.num 0)) ∧
    (get_prop (set_prop initTables lv_style_init .TEXT_LINE_SPACE { num := 7 }).1
        (set_prop initTables lv_style_init .TEXT_LINE_SPACE { num := 7 }).2 .TEXT_LINE_SPACE =
      none) ∧
    (get_prop (set_prop stFullNum lv_style_init .PAD_RIGHT { num := 100 }).1
        (set_prop stFullNum lv_style_init .PAD_RIGHT { num := 100 }).2 .PAD_RIGHT = none) ∧
    (get_prop (set_prop stFullNum lv_style_init .LINE_WIDTH { num := 100 }).1
        (set_prop stFullNum lv_style_init .LINE_WIDTH { num := 100 }).2 .LINE_WIDTH =
      some (.num 1)) ∧
    (get_prop (set_prop initTables lv_style_init .PAD_TOP { num := 5 }).1
        (set_prop initTables lv_style_init .PAD_TOP { num := 5 }).2 .PAD_TOP =
      some (.num 5)) := by
  refine ⟨?_, ?_, ?_, ?_, ?_⟩ <;> decide

/-- C10 (code bug): removal does not always make a property absent.  On a fresh
style, set LV_STYLE_BORDER_POST to 1 and remove it: remove_prop returns true
(it clears `has_border_post`), yet get_prop still returns the value 1 because
its BORDER_POST case tests the stored value instead of the flag.  For contrast
the structurally identical LV_STYLE_CLIP_CORNER becomes absent after removal,
and the unrecognised LV_STYLE_BG_COLOR_FILTERED makes remove_prop return false
leaving the style unchanged, as the claim states. -/
theorem style_remove_bugs :
    ((remove_prop (set_prop initTables lv_style_init .BORDER_POST { num := 1 }).2
        .BORDER_POST).2 = true) ∧
    (get_prop initTables
        (remove_prop (set_prop initTables lv_style_init .BORDER_POST { num := 1 }).2
          .BORDER_POST).1 .BORDER_POST = some (.num 1)) ∧
    (get_prop initTables
        (remove_prop (set_prop initTables lv_style_init .CLIP_CORNER { num := 1 }).2
          .CLIP_CORNER).1 .CLIP_CORNER = none) ∧
    (remove_prop lv_style_init .BG_COLOR_FILTERED = (lv_style_init, false)) := by
  refine ⟨?_, ?_, ?_, ?_⟩ <;> decide
